import Mathlib

/-
Shallow embedding of the hyperliquid-risk-simulator core:
  - src/services/calculations.ts      (risk / simulation engine)
  - the PositionStats component stats (roi, distance-to-liq, liquidation progress)
  - transformPositions                (position normalizer)
  - useWebSocket reconnection logic   (close handler state machine)

JavaScript numbers that can become non-finite are modelled by `JsVal`
(NaN, +Infinity, -Infinity, or a finite rational).  Fields that the code
only ever fills with parsed finite values are modelled as plain rationals.
-/

namespace HL

/-- A JavaScript number outcome: NaN, +Infinity, -Infinity or a finite value. -/
inductive JsVal where
  | nan : JsVal
  | inf : JsVal
  | ninf : JsVal
  | fin : ℚ → JsVal
deriving DecidableEq, Repr

/-- JS division of two finite numbers: x / 0 is NaN when x = 0, otherwise a
signed infinity (the divisor is the rational zero, i.e. JS positive zero). -/
def jsDivQ (x y : ℚ) : JsVal :=
  if y = 0 then
    if x = 0 then JsVal.nan else if x > 0 then JsVal.inf else JsVal.ninf
  else JsVal.fin (x / y)

/-- JS division of a finite number by a possibly non-finite number. -/
def jsDivQV (x : ℚ) (v : JsVal) : JsVal :=
  match v with
  | JsVal.nan => JsVal.nan
  | JsVal.inf => JsVal.fin 0
  | JsVal.ninf => JsVal.fin 0
  | JsVal.fin y => jsDivQ x y

/-- JS multiplication of a possibly non-finite number by a finite constant. -/
def JsVal.mulQ (v : JsVal) (c : ℚ) : JsVal :=
  match v with
  | JsVal.nan => JsVal.nan
  | JsVal.inf => if c > 0 then JsVal.inf else if c < 0 then JsVal.ninf else JsVal.nan
  | JsVal.ninf => if c > 0 then JsVal.ninf else if c < 0 then JsVal.inf else JsVal.nan
  | JsVal.fin q => JsVal.fin (q * c)

/-- JS Math.abs on a possibly non-finite number. -/
def JsVal.absV : JsVal → JsVal
  | JsVal.nan => JsVal.nan
  | JsVal.inf => JsVal.inf
  | JsVal.ninf => JsVal.inf
  | JsVal.fin q => JsVal.fin |q|

/-- Position side: the TS union type `long | short`. -/
inductive Side where
  | long : Side
  | short : Side
deriving DecidableEq, Repr

/-- The internal `Position` record of src/types/index.ts.  `liquidationPrice`
is `number | null`; `leverage` and `margin` are the two fields that
`transformPositions` can fill with a non-finite value, so they are `JsVal`. -/
structure Position where
  coin : String
  side : Side
  size : ℚ
  entryPrice : ℚ
  currentPrice : ℚ
  leverage : JsVal
  liquidationPrice : Option ℚ
  unrealizedPnl : ℚ
  positionValue : ℚ
  margin : JsVal
deriving DecidableEq, Repr

/-- JS falsiness of a `number | null` value: null and 0 are falsy. -/
def qOptFalsy : Option ℚ → Bool
  | none => true
  | some q => decide (q = 0)

/-- calculations.ts `calculateNewPrice`: currentPrice * (1 + percentChange / 100). -/
def calculateNewPrice (currentPrice percentChange : ℚ) : ℚ :=
  currentPrice * (1 + percentChange / 100)

/-- calculations.ts `isPositionLiquidated`: the guard is the JS falsy test
`!position.liquidationPrice`, then a side-dependent comparison. -/
def isPositionLiquidated (p : Position) (newPrice : ℚ) : Bool :=
  if qOptFalsy p.liquidationPrice then false
  else
    match p.side with
    | Side.long => decide (newPrice ≤ p.liquidationPrice.getD 0)
    | Side.short => decide (newPrice ≥ p.liquidationPrice.getD 0)

/-- calculations.ts `calculatePnL`: size * (newPrice - entryPrice) * (long ? 1 : -1). -/
def calculatePnL (p : Position) (newPrice : ℚ) : ℚ :=
  p.size * (newPrice - p.entryPrice) * (match p.side with | Side.long => 1 | Side.short => -1)

/-- calculations.ts `calculateDistanceToLiquidation`: Infinity when the
liquidation price is falsy, else |(currentPrice - liq) / currentPrice| * 100. -/
def calculateDistanceToLiquidation (p : Position) : JsVal :=
  if qOptFalsy p.liquidationPrice then JsVal.inf
  else
    ((jsDivQ (p.currentPrice - p.liquidationPrice.getD 0) p.currentPrice).absV).mulQ 100

/-- calculations.ts `calculateROE`: (pnl / margin) * 100, with no zero guard. -/
def calculateROE (p : Position) (newPrice : ℚ) : JsVal :=
  (jsDivQV (calculatePnL p newPrice) p.margin).mulQ 100

/-- A `{price, time}` sample of calculations.ts `generatePriceHistory`. -/
structure PriceSample where
  price : ℚ
  time : ℕ
deriving DecidableEq, Repr

/-- The smoothstep curve `t * t * (3 - 2 * t)` used by `generatePriceHistory`. -/
def smoothstep (t : ℚ) : ℚ :=
  t * t * (3 - 2 * t)

/-- One unclamped step price of `generatePriceHistory`:
trend `startPrice + totalChange * smoothstep(i / steps)` plus the random
variation `(r - 0.5) * 2 * 0.02 * |startPrice|`, where `r` is the
Math.random() draw of step `i`. -/
def rawStepPrice (startPrice endPrice : ℚ) (steps : ℕ) (r : ℚ) (i : ℕ) : ℚ :=
  startPrice + (endPrice - startPrice) * smoothstep ((i : ℚ) / (steps : ℚ))
    + (r - 1/2) * 2 * (2/100) * |startPrice|

/-- The overshoot clamp of `generatePriceHistory`: when the total change is
positive, `min` against `endPrice + 5%` then `max` against `startPrice - 5%`;
otherwise `max` against `endPrice - 5%` then `min` against `startPrice + 5%`
(percentages of `|totalChange|`). -/
def clampStepPrice (startPrice endPrice price : ℚ) : ℚ :=
  if endPrice - startPrice > 0 then
    max (min price (endPrice + |endPrice - startPrice| * (5/100)))
      (startPrice - |endPrice - startPrice| * (5/100))
  else
    min (max price (endPrice - |endPrice - startPrice| * (5/100)))
      (startPrice + |endPrice - startPrice| * (5/100))

/-- The price pushed at loop index `i` of `generatePriceHistory`: the clamped
step price, overridden to `endPrice` exactly on the last step. -/
def genStep (startPrice endPrice : ℚ) (steps : ℕ) (rand : ℕ → ℚ) (i : ℕ) : ℚ :=
  if i = steps then endPrice
  else clampStepPrice startPrice endPrice (rawStepPrice startPrice endPrice steps (rand i) i)

/-- calculations.ts `generatePriceHistory`: the loop `for i in [0, steps]`
pushing `{price, time: i}`, with `rand i` the Math.random() draw of step `i`. -/
def generatePriceHistory (startPrice endPrice : ℚ) (steps : ℕ) (rand : ℕ → ℚ) :
    List PriceSample :=
  (List.range (steps + 1)).map (fun i => ⟨genStep startPrice endPrice steps rand i, i⟩)

/-- PositionStats `roi`: `(unrealizedPnl / position.margin) * 100`, where
`unrealizedPnl` is the simulated or live P&L being displayed. -/
def statsRoi (p : Position) (unrealizedPnl : ℚ) : JsVal :=
  (jsDivQV unrealizedPnl p.margin).mulQ 100

/-- PositionStats `distanceToLiq`:
`|(position.liquidationPrice - currentPrice) / currentPrice| * 100`
(a JS null liquidation price coerces to 0 in arithmetic). -/
def statsDistanceToLiq (p : Position) (currentPrice : ℚ) : JsVal :=
  ((jsDivQ (p.liquidationPrice.getD 0 - currentPrice) currentPrice).absV).mulQ 100

/-- PositionStats `liquidationProgress`:
`((currentPrice - entryPrice) / (liquidationPrice - entryPrice)) * 100`. -/
def statsLiquidationProgress (p : Position) (currentPrice : ℚ) : JsVal :=
  (jsDivQ (currentPrice - p.entryPrice) (p.liquidationPrice.getD 0 - p.entryPrice)).mulQ 100

/-- The runtime shape of the raw `leverage` field: a bare number, an object
with a `value` property, or anything else (the fallback branch). -/
inductive RawLeverage where
  | num : ℚ → RawLeverage
  | obj : ℚ → String → RawLeverage
  | other : RawLeverage
deriving DecidableEq, Repr

/-- A raw Hyperliquid position record, after parseFloat of its string fields.
`liquidationPx = none` models a null (or falsy) raw value; note that the raw
string "0" is truthy and parses to `some 0`. -/
structure RawPosition where
  coin : String
  entryPx : ℚ
  liquidationPx : Option ℚ
  leverage : RawLeverage
  positionValue : ℚ
  unrealizedPnl : ℚ
  szi : ℚ
deriving DecidableEq, Repr

/-- The body of the `.map` in `transformPositions`: returns `none` for a
zero-size (closed) position, otherwise the normalized `Position`.  A missing
mid price defaults to 0, the leverage fallback is
`|positionValue| / (|positionValue| / 10)` and margin is
`|positionValue| / leverage` (JS division, hence `JsVal`). -/
def transformPosition (prices : String → Option ℚ) (item : RawPosition) : Option Position :=
  let size := item.szi
  if size = 0 then none
  else
    let positionValue := item.positionValue
    let leverage : JsVal :=
      match item.leverage with
      | RawLeverage.num v => JsVal.fin v
      | RawLeverage.obj v _ => JsVal.fin v
      | RawLeverage.other => jsDivQ |positionValue| (|positionValue| / 10)
    some
      { coin := item.coin
        side := if size > 0 then Side.long else Side.short
        size := |size|
        entryPrice := item.entryPx
        currentPrice := (prices item.coin).getD 0
        leverage := leverage
        liquidationPrice := item.liquidationPx
        unrealizedPnl := item.unrealizedPnl
        positionValue := |positionValue|
        margin := jsDivQV |positionValue| leverage }

/-- `transformPositions`: map each raw asset position through
`transformPosition` and filter out the `null` (closed) entries. -/
def transformPositions (raws : List RawPosition) (prices : String → Option ℚ) :
    List Position :=
  ((raws.map (transformPosition prices)).filterMap id)

/-- useWebSocket `maxReconnectAttempts`. -/
def maxReconnectAttempts : ℕ := 5

/-- The observable reconnection state of useWebSocket: the
`reconnectAttemptsRef` counter, the `isConnected` flag, the `error` string,
and the delay (ms) of the reconnect timer armed by the last event, if any. -/
structure WsState where
  reconnectAttempts : ℕ
  isConnected : Bool
  error : Option String
  reconnectTimerDelay : Option ℕ
deriving DecidableEq, Repr

/-- The state before any close event: zero attempts, no error, no timer. -/
def wsInitial : WsState :=
  { reconnectAttempts := 0, isConnected := true, error := none, reconnectTimerDelay := none }

/-- The `ws.onclose` handler with `enabled = true` and the component mounted:
always clears the connected flag; while attempts remain it arms one reconnect
timer with delay `min(1000 * 2 ^ attempts, 30000)` and increments the counter,
otherwise it sets the terminal error and arms nothing. -/
def wsOnClose (s : WsState) : WsState :=
  if s.reconnectAttempts < maxReconnectAttempts then
    { s with
      isConnected := false
      reconnectTimerDelay := some (min (1000 * 2 ^ s.reconnectAttempts) 30000)
      reconnectAttempts := s.reconnectAttempts + 1 }
  else
    { s with
      isConnected := false
      reconnectTimerDelay := none
      error := some "Connection lost. Pull to refresh." }

/-- The state after `n` consecutive unexpected closes with no successful
reopen in between (each reconnect attempt fails straight back into onclose). -/
def wsAfterCloses (n : ℕ) : WsState :=
  wsOnClose^[n] wsInitial

/-- The scenario position of the spec: long, size 10, entry 100, leverage 5,
liquidation 80, margin 200. -/
def pos9 : Position :=
  { coin := "BTC", side := Side.long, size := 10, entryPrice := 100, currentPrice := 100,
    leverage := JsVal.fin 5, liquidationPrice := some 80, unrealizedPnl := 0,
    positionValue := 1000, margin := JsVal.fin 200 }

/-- A short position whose liquidation price is set and equal to 0. -/
def posC1 : Position :=
  { coin := "BTC", side := Side.short, size := 1, entryPrice := 100, currentPrice := 100,
    leverage := JsVal.fin 10, liquidationPrice := some 0, unrealizedPnl := 0,
    positionValue := 100, margin := JsVal.fin 10 }

/-- A position with zero margin (e.g. zero position value). -/
def posZeroMargin : Position :=
  { coin := "BTC", side := Side.long, size := 10, entryPrice := 100, currentPrice := 100,
    leverage := JsVal.fin 10, liquidationPrice := some 80, unrealizedPnl := 0,
    positionValue := 0, margin := JsVal.fin 0 }

/-- A position with zero current price (e.g. its symbol was missing from the
mid-price map). -/
def posZeroPrice : Position :=
  { coin := "BTC", side := Side.long, size := 10, entryPrice := 100, currentPrice := 0,
    leverage := JsVal.fin 10, liquidationPrice := some 80, unrealizedPnl := 0,
    positionValue := 1000, margin := JsVal.fin 100 }

/-- A position whose liquidation price equals its entry price, so the
progress denominator `liquidationPrice - entryPrice` is zero. -/
def posZeroRange : Position :=
  { coin := "BTC", side := Side.long, size := 10, entryPrice := 100, currentPrice := 105,
    leverage := JsVal.fin 10, liquidationPrice := some 100, unrealizedPnl := 50,
    positionValue := 1000, margin := JsVal.fin 100 }

/-- A raw position with nonzero size, a leverage field of neither accepted
shape, and zero position value. -/
def rawC7 : RawPosition :=
  { coin := "ETH", entryPx := 100, liquidationPx := none, leverage := RawLeverage.other,
    positionValue := 0, unrealizedPnl := 0, szi := 1 }

/-- C1 counterexample: `posC1` has its liquidation price set (to the value 0)
and side short, the candidate price 100 satisfies `price ≥ liquidationPrice`,
yet `isPositionLiquidated` returns false — the claim predicts true here,
because the falsy guard `!position.liquidationPrice` also fires on 0. -/
theorem C1_counterexample :
    posC1.liquidationPrice = some 0 ∧ posC1.side = Side.short ∧ (100 : ℚ) ≥ 0 ∧
    isPositionLiquidated posC1 100 = false := by
  refine ⟨rfl, rfl, by norm_num, ?_⟩
  norm_num [isPositionLiquidated, qOptFalsy, posC1]

/-- C1 (amended): `isPositionLiquidated` returns false when the liquidation
price is absent or equal to 0; otherwise it compares `price ≤ lp` for a long
and `price ≥ lp` for a short. -/
theorem C1_liquidation_rule (p : Position) (price : ℚ) :
    ((p.liquidationPrice = none ∨ p.liquidationPrice = some 0) →
      isPositionLiquidated p price = false) ∧
    (∀ lp : ℚ, p.liquidationPrice = some lp → lp ≠ 0 →
      isPositionLiquidated p price =
        match p.side with
        | Side.long => decide (price ≤ lp)
        | Side.short => decide (price ≥ lp)) := by
  constructor
  · rintro (h | h) <;> simp [isPositionLiquidated, qOptFalsy, h]
  · intro lp hlp hne
    cases hside : p.side <;>
      simp [isPositionLiquidated, qOptFalsy, hlp, hne, hside]

/-- C1 witness: the amended rule evaluated at `posC1` (zero liquidation
price) and at `pos9` (long, liquidation price 80, candidate price 85). -/
theorem C1_liquidation_rule_witness :
    isPositionLiquidated posC1 100 = false ∧
    isPositionLiquidated pos9 85 = decide ((85 : ℚ) ≤ 80) := by
  constructor
  · exact (C1_liquidation_rule posC1 100).1 (Or.inr rfl)
  · exact (C1_liquidation_rule pos9 85).2 80 rfl (by norm_num)

/-- C2: the divisions the claim says are guarded are in fact unguarded; at
zero divisors they produce a JS infinity (or NaN), not a sentinel:
`calculateROE` and the PositionStats `roi` with zero margin,
`calculateDistanceToLiquidation` with zero current price, and the
PositionStats `liquidationProgress` with `liquidationPrice = entryPrice`. -/
theorem C2_unguarded_divisions :
    calculateROE posZeroMargin 110 = JsVal.inf ∧
    statsRoi posZeroMargin (-50) = JsVal.ninf ∧
    calculateDistanceToLiquidation posZeroPrice = JsVal.inf ∧
    statsLiquidationProgress posZeroRange 105 = JsVal.inf := by
  refine ⟨?_, ?_, ?_, ?_⟩
  · norm_num [calculateROE, calculatePnL, jsDivQV, jsDivQ, JsVal.mulQ, posZeroMargin]
  · norm_num [statsRoi, jsDivQV, jsDivQ, JsVal.mulQ, posZeroMargin]
  · norm_num [calculateDistanceToLiquidation, qOptFalsy, jsDivQ, JsVal.mulQ, JsVal.absV,
      posZeroPrice]
  · norm_num [statsLiquidationProgress, jsDivQ, JsVal.mulQ, posZeroRange]

/-- C8: for a long position with nonnegative size (the data model has
`size > 0`), `calculatePnL` is monotonically increasing in the price; for a
short position it is monotonically decreasing. -/
theorem C8_pnl_monotone (p : Position) (hsize : 0 ≤ p.size) (price1 price2 : ℚ)
    (h12 : price1 ≤ price2) :
    (p.side = Side.long → calculatePnL p price1 ≤ calculatePnL p price2) ∧
    (p.side = Side.short → calculatePnL p price2 ≤ calculatePnL p price1) := by
  constructor <;> intro hside <;> simp only [calculatePnL, hside] <;> nlinarith

/-- C8 witness: monotonicity applied to `pos9` at prices 85 and 100. -/
theorem C8_pnl_monotone_witness :
    calculatePnL pos9 85 ≤ calculatePnL pos9 100 :=
  (C8_pnl_monotone pos9 (by norm_num [pos9]) 85 100 (by norm_num)).1 rfl

/-- C9: the spec scenario on `pos9`: a -15% move gives price 85, P&L -150
and no liquidation; a -25% move gives price 75 and liquidation. -/
theorem C9_scenario :
    calculateNewPrice 100 (-15) = 85 ∧
    calculatePnL pos9 85 = -150 ∧
    isPositionLiquidated pos9 85 = false ∧
    calculateNewPrice 100 (-25) = 75 ∧
    isPositionLiquidated pos9 75 = true := by
  refine ⟨?_, ?_, ?_, ?_, ?_⟩ <;>
    norm_num [calculateNewPrice, calculatePnL, isPositionLiquidated, qOptFalsy, pos9]

/-- C10: a liquidation price of exactly 0 behaves like an absent one:
`isPositionLiquidated` is false at every price and
`calculateDistanceToLiquidation` is Infinity. -/
theorem C10_zero_liquidation_price (p : Position) (price : ℚ)
    (h : p.liquidationPrice = some 0) :
    isPositionLiquidated p price = false ∧
    calculateDistanceToLiquidation p = JsVal.inf := by
  constructor
  · simp [isPositionLiquidated, qOptFalsy, h]
  · simp [calculateDistanceToLiquidation, qOptFalsy, h]

/-- C10 witness: evaluated at `posC1`, whose liquidation price is `some 0`. -/
theorem C10_zero_liquidation_price_witness :
    isPositionLiquidated posC1 100 = false ∧
    calculateDistanceToLiquidation posC1 = JsVal.inf :=
  C10_zero_liquidation_price posC1 100 rfl

/-- The attempts counter after `n` consecutive closes: it increments up to
the cap of 5 and then stays there. -/
theorem wsAfterCloses_attempts (n : ℕ) :
    (wsAfterCloses n).reconnectAttempts = min n 5 := by
  induction n with
  | zero => rfl
  | succ k ih =>
    have hit : wsAfterCloses (k + 1) = wsOnClose (wsAfterCloses k) :=
      Function.iterate_succ_apply' wsOnClose k wsInitial
    rw [hit, wsOnClose]
    split
    · simp only [maxReconnectAttempts] at *
      omega
    · simp only [maxReconnectAttempts] at *
      omega

/-- C4: close number `k + 1` (with `k` reconnect attempts already made, no
successful reopen in between) arms one reconnect timer with delay
`min(1000 * 2 ^ k, 30000)` when `k < 5`; once 5 attempts are exhausted, a
further close arms no timer, leaves the connected flag false and sets the
terminal connection-lost error — and this holds for every later close, so no
reconnect timer is ever armed automatically again. -/
theorem C4_reconnect_backoff (k : ℕ) :
    (k < 5 →
      (wsAfterCloses k).reconnectAttempts = k ∧
      (wsAfterCloses (k + 1)).reconnectTimerDelay = some (min (1000 * 2 ^ k) 30000) ∧
      (wsAfterCloses (k + 1)).reconnectAttempts = k + 1) ∧
    (5 ≤ k →
      (wsAfterCloses (k + 1)).reconnectTimerDelay = none ∧
      (wsAfterCloses (k + 1)).isConnected = false ∧
      (wsAfterCloses (k + 1)).error = some "Connection lost. Pull to refresh.") := by
  have hit : wsAfterCloses (k + 1) = wsOnClose (wsAfterCloses k) :=
    Function.iterate_succ_apply' wsOnClose k wsInitial
  have ha := wsAfterCloses_attempts k
  constructor
  · intro hk
    have hak : (wsAfterCloses k).reconnectAttempts = k := by omega
    refine ⟨hak, ?_, ?_⟩ <;>
      simp [hit, wsOnClose, maxReconnectAttempts, hak, hk]
  · intro hk
    have hak : (wsAfterCloses k).reconnectAttempts = 5 := by omega
    refine ⟨?_, ?_, ?_⟩ <;>
      simp [hit, wsOnClose, maxReconnectAttempts, hak]

/-- C4 witness: the third close arms a 4000 ms timer (2 attempts already
made); the sixth close arms nothing and reports the terminal error. -/
theorem C4_reconnect_backoff_witness :
    ((wsAfterCloses 2).reconnectAttempts = 2 ∧
      (wsAfterCloses 3).reconnectTimerDelay = some 4000 ∧
      (wsAfterCloses 3).reconnectAttempts = 3) ∧
    ((wsAfterCloses 6).reconnectTimerDelay = none ∧
      (wsAfterCloses 6).isConnected = false ∧
      (wsAfterCloses 6).error = some "Connection lost. Pull to refresh.") := by
  constructor
  · have h := (C4_reconnect_backoff 2).1 (by norm_num)
    simpa using h
  · exact (C4_reconnect_backoff 5).2 (by norm_num)

/-- `transformPositions` is the filterMap of the per-entry transform. -/
theorem transformPositions_eq_filterMap (raws : List RawPosition)
    (prices : String → Option ℚ) :
    transformPositions raws prices = raws.filterMap (transformPosition prices) := by
  induction raws with
  | nil => rfl
  | cons r rs ih =>
    simp only [transformPositions, List.map_cons, List.filterMap_cons, id_eq] at ih ⊢
    cases hfr : transformPosition prices r <;> simp [hfr, ih]

/-- A raw entry that maps to `some p` contributes `p` to the output list. -/
theorem mem_transformPositions_of (raws : List RawPosition)
    (prices : String → Option ℚ) (r : RawPosition) (p : Position) (hr : r ∈ raws)
    (hp : transformPosition prices r = some p) :
    p ∈ transformPositions raws prices := by
  rw [transformPositions_eq_filterMap, List.mem_filterMap]
  exact ⟨r, hr, hp⟩

/-- Dropping the zero-size entries up front does not change the output. -/
theorem filterMap_filter_size_ne_zero (prices : String → Option ℚ)
    (raws : List RawPosition) :
    (raws.filter fun r => decide (r.szi ≠ 0)).filterMap (transformPosition prices) =
      raws.filterMap (transformPosition prices) := by
  induction raws with
  | nil => rfl
  | cons r rs ih =>
    simp only [ne_eq, decide_not] at ih ⊢
    by_cases h : r.szi = 0
    · have hfr : transformPosition prices r = none := by simp [transformPosition, h]
      simp [List.filter_cons, h, List.filterMap_cons, hfr, ih]
    · cases hfr : transformPosition prices r <;>
        simp [List.filter_cons, h, List.filterMap_cons, hfr, ih]

/-- C5: zero-size entries are excluded (removing them first changes
nothing), and every nonzero-size entry yields an output position whose side
is long for positive raw size, short for negative raw size, and whose size
is the absolute value of the raw size. -/
theorem C5_size_zero_and_side (raws : List RawPosition) (prices : String → Option ℚ) :
    transformPositions (raws.filter fun r => decide (r.szi ≠ 0)) prices =
      transformPositions raws prices ∧
    ∀ r ∈ raws, r.szi ≠ 0 →
      ∃ p, transformPosition prices r = some p ∧
        p ∈ transformPositions raws prices ∧
        (0 < r.szi → p.side = Side.long) ∧
        (r.szi < 0 → p.side = Side.short) ∧
        p.size = |r.szi| := by
  constructor
  · rw [transformPositions_eq_filterMap, transformPositions_eq_filterMap,
      filterMap_filter_size_ne_zero]
  · intro r hr hsz
    rcases he : transformPosition prices r with _ | p
    · exfalso
      revert he
      simp [transformPosition, hsz]
    · refine ⟨p, rfl, mem_transformPositions_of raws prices r p hr he, ?_⟩
      have hp := he
      simp only [transformPosition, hsz, if_false, Option.some_inj] at hp
      rw [← hp]
      refine ⟨fun hpos => ?_, fun hneg => ?_, rfl⟩
      · simp [hpos]
      · simp [lt_asymm hneg]

/-- A raw short entry used as a concrete normalizer input. -/
def rawC6 : RawPosition :=
  { coin := "SOL", entryPx := 150, liquidationPx := some 180,
    leverage := RawLeverage.num 3, positionValue := 300, unrealizedPnl := -10, szi := -2 }

/-- C5 witness: the short entry `rawC6` (size -2) is normalized to a short
position of size 2 that appears in the output. -/
theorem C5_size_zero_and_side_witness :
    transformPositions ([rawC6].filter fun r => decide (r.szi ≠ 0)) (fun _ => none)
      = transformPositions [rawC6] (fun _ => none) ∧
    (transformPosition (fun _ => none) rawC6).map Position.side = some Side.short ∧
    (transformPosition (fun _ => none) rawC6).map Position.size = some 2 := by
  have h := C5_size_zero_and_side [rawC6] (fun _ => none)
  obtain ⟨p, hp, hmem, hlong, hshort, hsize⟩ :=
    h.2 rawC6 (List.mem_singleton.mpr rfl) (by norm_num [rawC6])
  refine ⟨h.1, ?_, ?_⟩
  · rw [hp, Option.map_some', hshort (by norm_num [rawC6])]
  · rw [hp, Option.map_some', hsize]
    norm_num [rawC6]

/-- C6: an entry with nonzero size whose symbol is missing from the
mid-price map is still normalized (not dropped) and gets current price 0. -/
theorem C6_missing_mid_price (raws : List RawPosition) (prices : String → Option ℚ)
    (r : RawPosition) (hr : r ∈ raws) (hsz : r.szi ≠ 0)
    (hmiss : prices r.coin = none) :
    ∃ p, transformPosition prices r = some p ∧
      p ∈ transformPositions raws prices ∧ p.currentPrice = 0 := by
  rcases he : transformPosition prices r with _ | p
  · exfalso
    revert he
    simp [transformPosition, hsz]
  · refine ⟨p, rfl, mem_transformPositions_of raws prices r p hr he, ?_⟩
    have hp := he
    simp only [transformPosition, hsz, if_false, Option.some_inj] at hp
    rw [← hp]
    simp [hmiss]

/-- C6 witness: `rawC6` against an empty mid-price map is kept (the
per-entry transform is `some`) and its current price is 0. -/
theorem C6_missing_mid_price_witness :
    (transformPosition (fun _ => none) rawC6).isSome = true ∧
    (transformPosition (fun _ => none) rawC6).map Position.currentPrice = some 0 := by
  obtain ⟨p, hp, hmem, hcp⟩ := C6_missing_mid_price [rawC6] (fun _ => none) rawC6
    (List.mem_singleton.mpr rfl) (by norm_num [rawC6]) rfl
  rw [hp, Option.map_some', hcp]
  exact ⟨rfl, rfl⟩

/-- C7 counterexample: `rawC7` has nonzero size, a leverage field of neither
accepted shape, and position value 0; the fallback computes `0 / (0 / 10)`,
i.e. NaN, so the output leverage is NaN, not 10. -/
theorem C7_counterexample :
    rawC7.szi ≠ 0 ∧ rawC7.leverage = RawLeverage.other ∧
    (transformPosition (fun _ => none) rawC7).map Position.leverage = some JsVal.nan ∧
    JsVal.nan ≠ JsVal.fin 10 := by
  refine ⟨by norm_num [rawC7], rfl, ?_, by simp⟩
  norm_num [transformPosition, rawC7, jsDivQ]

/-- C7 (amended): with an unrecognized leverage field, a nonzero size and a
nonzero position value, the transform does not fail and the output leverage
is the fallback value 10 = |positionValue| / (|positionValue| / 10); with a
zero position value the same fallback is 0 / 0 = NaN. -/
theorem C7_leverage_fallback (prices : String → Option ℚ) (r : RawPosition)
    (hsz : r.szi ≠ 0) (hlev : r.leverage = RawLeverage.other)
    (hpv : r.positionValue ≠ 0) :
    ∃ p, transformPosition prices r = some p ∧ p.leverage = JsVal.fin 10 := by
  rcases he : transformPosition prices r with _ | p
  · exfalso
    revert he
    simp [transformPosition, hsz]
  · refine ⟨p, rfl, ?_⟩
    have hp := he
    simp only [transformPosition, hsz, if_false, hlev, Option.some_inj] at hp
    rw [← hp]
    have habs : |r.positionValue| ≠ 0 := abs_ne_zero.mpr hpv
    have h10 : |r.positionValue| / 10 ≠ 0 := by
      simp [div_eq_zero_iff, habs]
    have hval : |r.positionValue| / (|r.positionValue| / 10) = 10 := by
      field_simp
    simp [jsDivQ, h10, hval]

/-- A raw position hitting the leverage fallback with nonzero value. -/
def rawC7b : RawPosition :=
  { coin := "ETH", entryPx := 100, liquidationPx := some 90,
    leverage := RawLeverage.other, positionValue := 500, unrealizedPnl := 0, szi := 5 }

/-- C7 witness: the fallback applied to `rawC7b` yields leverage 10. -/
theorem C7_leverage_fallback_witness :
    (transformPosition (fun _ => none) rawC7b).map Position.leverage
      = some (JsVal.fin 10) := by
  obtain ⟨p, hp, hlev⟩ := C7_leverage_fallback (fun _ => none) rawC7b
    (by norm_num [rawC7b]) rfl (by norm_num [rawC7b])
  rw [hp, Option.map_some', hlev]

/-- Clamping by an upper bound then a lower bound moves a point no farther
from any `c` inside `[lo, hi]`. -/
theorem clamp_updown_abs_le {lo hi c x : ℚ} (h1 : lo ≤ c) (h2 : c ≤ hi) :
    |max (min x hi) lo - c| ≤ |x - c| := by
  rcases le_total x hi with hx1 | hx1
  · rcases le_total x lo with hx2 | hx2
    · rw [min_eq_left hx1, max_eq_right hx2, abs_of_nonpos (by linarith),
        abs_of_nonpos (by linarith)]
      linarith
    · rw [min_eq_left hx1, max_eq_left hx2]
  · rw [min_eq_right hx1, max_eq_left (h1.trans h2), abs_of_nonneg (by linarith),
      abs_of_nonneg (by linarith)]
    linarith

/-- Clamping by a lower bound then an upper bound moves a point no farther
from any `c` inside `[lo, hi]`. -/
theorem clamp_downup_abs_le {lo hi c x : ℚ} (h1 : lo ≤ c) (h2 : c ≤ hi) :
    |min (max x lo) hi - c| ≤ |x - c| := by
  rcases le_total x lo with hx1 | hx1
  · rw [max_eq_right hx1, min_eq_left (h1.trans h2), abs_of_nonpos (by linarith),
      abs_of_nonpos (by linarith)]
    linarith
  · rcases le_total x hi with hx2 | hx2
    · rw [max_eq_left hx1, min_eq_left hx2]
    · rw [max_eq_left hx1, min_eq_right hx2, abs_of_nonneg (by linarith),
        abs_of_nonneg (by linarith)]
      linarith

/-- Every clamped step price lies in the start/end interval extended on each
side by 5% of the total move. -/
theorem clampStepPrice_mem (s e x : ℚ) :
    min s e - |e - s| * (5/100) ≤ clampStepPrice s e x ∧
    clampStepPrice s e x ≤ max s e + |e - s| * (5/100) := by
  have habs : (0:ℚ) ≤ |e - s| := abs_nonneg _
  unfold clampStepPrice
  split
  · rename_i h
    have hm : min s e = s := min_eq_left (by linarith)
    have hM : max s e = e := max_eq_right (by linarith)
    rw [hm, hM]
    constructor
    · exact le_max_right _ _
    · exact max_le (min_le_right _ _) (by linarith)
  · rename_i h
    push_neg at h
    have hm : min s e = e := min_eq_right (by linarith)
    have hM : max s e = s := max_eq_left (by linarith)
    rw [hm, hM]
    constructor
    · exact le_min (le_max_right _ _) (by linarith)
    · exact min_le_right _ _

/-- The overshoot clamp moves a price no farther away from any point of the
start/end interval. -/
theorem clampStepPrice_abs_le {s e c : ℚ} (x : ℚ) (h1 : min s e ≤ c)
    (h2 : c ≤ max s e) :
    |clampStepPrice s e x - c| ≤ |x - c| := by
  have habs : (0:ℚ) ≤ |e - s| := abs_nonneg _
  unfold clampStepPrice
  split
  · rename_i h
    have hm : min s e = s := min_eq_left (by linarith)
    have hM : max s e = e := max_eq_right (by linarith)
    rw [hm] at h1
    rw [hM] at h2
    exact clamp_updown_abs_le (by linarith) (by linarith)
  · rename_i h
    push_neg at h
    have hm : min s e = e := min_eq_right (by linarith)
    have hM : max s e = s := max_eq_left (by linarith)
    rw [hm] at h1
    rw [hM] at h2
    exact clamp_downup_abs_le (by linarith) (by linarith)

/-- The final loop iteration forces the price to `endPrice` exactly. -/
theorem genStep_last (s e : ℚ) (steps : ℕ) (rand : ℕ → ℚ) :
    genStep s e steps rand steps = e := by
  simp [genStep]

/-- A non-final loop iteration produces the clamped step price. -/
theorem genStep_ne (s e : ℚ) (steps : ℕ) (rand : ℕ → ℚ) (i : ℕ) (h : i ≠ steps) :
    genStep s e steps rand i = clampStepPrice s e (rawStepPrice s e steps (rand i) i) := by
  simp [genStep, h]

/-- C3: for `steps ≥ 1` and any draws in [0, 1], the price history has
`steps + 1` samples, the last sample is exactly `endPrice`, the first sample
is within 2% of `|startPrice|` of `startPrice`, and every sample lies between
`min(start, end)` and `max(start, end)` extended on each end by 5% of the
total move. -/
theorem C3_price_history_shape (startPrice endPrice : ℚ) (steps : ℕ)
    (hsteps : 1 ≤ steps) (rand : ℕ → ℚ) (hrand : ∀ i, 0 ≤ rand i ∧ rand i ≤ 1) :
    (generatePriceHistory startPrice endPrice steps rand).length = steps + 1 ∧
    ((generatePriceHistory startPrice endPrice steps rand)[steps]?).map PriceSample.price
      = some endPrice ∧
    (∀ s0 : PriceSample,
      (generatePriceHistory startPrice endPrice steps rand)[0]? = some s0 →
      |s0.price - startPrice| ≤ (2/100) * |startPrice|) ∧
    ∀ sm ∈ generatePriceHistory startPrice endPrice steps rand,
      min startPrice endPrice - |endPrice - startPrice| * (5/100) ≤ sm.price ∧
      sm.price ≤ max startPrice endPrice + |endPrice - startPrice| * (5/100) := by
  refine ⟨?_, ?_, ?_, ?_⟩
  · simp [generatePriceHistory]
  · rw [generatePriceHistory, List.getElem?_map, List.getElem?_range (by omega)]
    simp [genStep_last]
  · intro s0 h0
    rw [generatePriceHistory, List.getElem?_map, List.getElem?_range (by omega)] at h0
    simp only [Option.map_some'] at h0
    obtain rfl := Option.some_inj.mp h0
    show |genStep startPrice endPrice steps rand 0 - startPrice| ≤ (2/100) * |startPrice|
    rw [genStep_ne startPrice endPrice steps rand 0 (by omega)]
    have hraw : rawStepPrice startPrice endPrice steps (rand 0) 0
        = startPrice + (rand 0 - 1/2) * 2 * (2/100) * |startPrice| := by
      simp [rawStepPrice, smoothstep]
    calc |clampStepPrice startPrice endPrice
            (rawStepPrice startPrice endPrice steps (rand 0) 0) - startPrice|
        ≤ |rawStepPrice startPrice endPrice steps (rand 0) 0 - startPrice| :=
          clampStepPrice_abs_le _ (min_le_left _ _) (le_max_left _ _)
      _ ≤ (2/100) * |startPrice| := by
          rw [hraw]
          have h0r := hrand 0
          have habs : |rand 0 - 1/2| ≤ 1/2 :=
            abs_le.mpr ⟨by linarith [h0r.1], by linarith [h0r.2]⟩
          have hrw : startPrice + (rand 0 - 1/2) * 2 * (2/100) * |startPrice| - startPrice
              = (rand 0 - 1/2) * (2 * (2/100) * |startPrice|) := by ring
          rw [hrw, abs_mul]
          have h2 : |(2:ℚ) * (2/100) * abs startPrice| = 2 * (2/100) * abs startPrice :=
            abs_of_nonneg (by positivity)
          rw [h2]
          have hmul := mul_le_mul_of_nonneg_right habs
            (by positivity : (0:ℚ) ≤ 2 * (2/100) * abs startPrice)
          linarith
  · intro sm hm
    rw [generatePriceHistory] at hm
    rcases List.mem_map.mp hm with ⟨i, hi, rfl⟩
    show min startPrice endPrice - |endPrice - startPrice| * (5/100)
          ≤ genStep startPrice endPrice steps rand i ∧
        genStep startPrice endPrice steps rand i
          ≤ max startPrice endPrice + |endPrice - startPrice| * (5/100)
    by_cases hie : i = steps
    · subst hie
      rw [genStep_last]
      have h1 := min_le_right startPrice endPrice
      have h2 := le_max_right startPrice endPrice
      have habs : (0:ℚ) ≤ |endPrice - startPrice| := abs_nonneg _
      constructor <;> linarith
    · rw [genStep_ne startPrice endPrice steps rand i hie]
      exact clampStepPrice_mem _ _ _

/-- C3 witness: 100 → 110 in 2 steps with all draws at 1/2 yields 3 samples
ending exactly at 110. -/
theorem C3_price_history_shape_witness :
    (generatePriceHistory 100 110 2 (fun _ => 1/2)).length = 2 + 1 ∧
    ((generatePriceHistory 100 110 2 (fun _ => 1/2))[2]?).map PriceSample.price
      = some 110 := by
  have h := C3_price_history_shape 100 110 2 (by norm_num) (fun _ => 1/2)
    (fun i => by norm_num)
  exact ⟨h.1, h.2.1⟩

end HL
